import Mathlib

/-! # Verification of the evalml ensemble-classification fragment

Shallow embedding of `evalml/problem_types/utils.py` and
`evalml/pipelines/ensemble_classification_pipelines.py`, together with
theorems about the problem-type resolver `handle_problem_types`, the
class-cardinality validation in `EnsembleClassificationPipeline.fit`, the
prediction-reshaping step `_preds_processor`, the internal cross-validation
loop of `fit`, and `transform`.

Python exceptions are modelled as `Except.error` carrying the formatted
message; Python lists as `List`; pandas/woodwork frames by their column-name
lists (the part the verified code manipulates).
-/

deriving instance DecidableEq for Except

namespace EvalML

/-- Modelled from the spec: the canonical problem-type enumeration (class
`ProblemTypes` of `evalml/problem_types/problem_types.py`, which is not part
of this fragment). The spec fixes the enumerated set - binary, multiclass,
regression - with member names used for string lookup. -/
inductive ProblemTypes where
  | binary
  | multiclass
  | regression
  deriving DecidableEq, Repr

/-- Modelled from the spec: Python `Enum` name indexing `ProblemTypes[name]`
as used by `handle_problem_types`; a string matches exactly the name of a
canonical member (the caller uppercases first). -/
def lookupProblemType : String → Option ProblemTypes
  | "BINARY" => some ProblemTypes.binary
  | "MULTICLASS" => some ProblemTypes.multiclass
  | "REGRESSION" => some ProblemTypes.regression
  | _ => none

/-- Embedding of Python `str.upper` for the ASCII strings that name problem
types: characterwise uppercasing. -/
def pyUpper (s : String) : String := List.asString (s.data.map Char.toUpper)

/-- An element of a sequence passed to `handle_problem_types`: a canonical
enum value, a string, or any other Python value (the loop ignores those). -/
inductive PTElem where
  | enum : ProblemTypes → PTElem
  | str : String → PTElem
  | other : PTElem
  deriving DecidableEq, Repr

/-- An argument to `handle_problem_types`: a single enum value, a single
string, or a sequence of elements. -/
inductive PTInput where
  | enum : ProblemTypes → PTInput
  | str : String → PTInput
  | seq : List PTElem → PTInput
  deriving DecidableEq, Repr

/-- A normal (non-raising) return value of `handle_problem_types`: either a
single enum value or a list of enum values. -/
inductive PTOutput where
  | single : ProblemTypes → PTOutput
  | seq : List ProblemTypes → PTOutput
  deriving DecidableEq, Repr

/-- The `for problem_type in problem_types` loop of `handle_problem_types`
(`evalml/problem_types/utils.py`, lines 17-27): enum elements are appended
unchanged; string elements are looked up by uppercased name, a failed lookup
raising `KeyError` with the original string interpolated into the message;
elements of any other type are skipped. -/
def resolveLoop : List PTElem → Except String (List ProblemTypes)
  | [] => Except.ok []
  | PTElem.enum tp :: rest => (resolveLoop rest).map (tp :: ·)
  | PTElem.str s :: rest =>
      match lookupProblemType (pyUpper s) with
      | some tp => (resolveLoop rest).map (tp :: ·)
      | none => Except.error ("Problem type \x27" ++ s ++ "\x27 does not exist")
  | PTElem.other :: rest => resolveLoop rest

/-- Embedding of `handle_problem_types` (`evalml/problem_types/utils.py`):
a `ProblemTypes` value is returned unchanged; a single string is wrapped into
a one-element list and then fed through the loop, so the function returns a
list for it; a sequence is fed through the loop directly. `KeyError` (a
`LookupError` subclass) is modelled as `Except.error` with the message. -/
def handle_problem_types : PTInput → Except String PTOutput
  | PTInput.enum tp => Except.ok (PTOutput.single tp)
  | PTInput.str s => (resolveLoop [PTElem.str s]).map PTOutput.seq
  | PTInput.seq es => (resolveLoop es).map PTOutput.seq

/-- Resolution of one sequence element, when the loop keeps it. -/
def resolveElem : PTElem → Option ProblemTypes
  | PTElem.enum tp => some tp
  | PTElem.str s => lookupProblemType (pyUpper s)
  | PTElem.other => none

/-- An element the loop can process without raising. -/
def elemOk : PTElem → Bool
  | PTElem.enum _ => true
  | PTElem.str s => (lookupProblemType (pyUpper s)).isSome
  | PTElem.other => true

theorem resolveLoop_eq_filterMap (es : List PTElem) (h : es.all elemOk = true) :
    resolveLoop es = Except.ok (es.filterMap resolveElem) := by
  induction es with
  | nil => rfl
  | cons e rest ih =>
    rw [List.all_cons, Bool.and_eq_true] at h
    cases e with
    | enum tp => simp [resolveLoop, Except.map, ih h.2, List.filterMap_cons, resolveElem]
    | str s =>
      have hs : (lookupProblemType (pyUpper s)).isSome = true := h.1
      rcases Option.isSome_iff_exists.mp hs with ⟨tp, htp⟩
      simp [resolveLoop, Except.map, htp, ih h.2, List.filterMap_cons, resolveElem]
    | other => simp [resolveLoop, ih h.2, List.filterMap_cons, resolveElem]

theorem resolveLoop_skip (pre post : List PTElem) :
    resolveLoop (pre ++ PTElem.other :: post) = resolveLoop (pre ++ post) := by
  induction pre with
  | nil => rfl
  | cons e rest ih =>
    cases e with
    | enum tp => simp [resolveLoop, ih]
    | str s => cases lookupProblemType (pyUpper s) <;> simp [resolveLoop, ih]
    | other => simp [resolveLoop, ih]

/-- C5 counterexample: resolving the single string `"binary"` yields the
one-element list `[ProblemTypes.binary]`, not the bare enum value: the code
wraps a single string into a list before the loop and returns the list. -/
theorem handle_problem_types_single_string_is_wrapped :
    handle_problem_types (PTInput.str "binary")
        = Except.ok (PTOutput.seq [ProblemTypes.binary])
      ∧ handle_problem_types (PTInput.str "binary")
        ≠ Except.ok (PTOutput.single ProblemTypes.binary) := by
  decide

/-- C5 (amended): a single canonical enum value is returned unchanged (not
wrapped); a single matching string returns the one-element list holding the
corresponding enum value; a sequence whose elements the loop accepts returns
the ordered list of their resolutions, in input order. -/
theorem handle_problem_types_shapes :
    (∀ tp, handle_problem_types (PTInput.enum tp)
        = Except.ok (PTOutput.single tp))
      ∧ (∀ s tp, lookupProblemType (pyUpper s) = some tp →
        handle_problem_types (PTInput.str s) = Except.ok (PTOutput.seq [tp]))
      ∧ (∀ es, es.all elemOk = true →
        handle_problem_types (PTInput.seq es)
          = Except.ok (PTOutput.seq (es.filterMap resolveElem))) := by
  refine ⟨fun tp => rfl, fun s tp htp => ?_, fun es hes => ?_⟩
  · simp [handle_problem_types, resolveLoop, Except.map, htp]
  · simp [handle_problem_types, Except.map, resolveLoop_eq_filterMap es hes]

/-- C5 witness: the three shapes at concrete inputs. -/
theorem handle_problem_types_shapes_witness :
    handle_problem_types (PTInput.enum ProblemTypes.multiclass)
        = Except.ok (PTOutput.single ProblemTypes.multiclass)
      ∧ handle_problem_types (PTInput.str "Binary")
        = Except.ok (PTOutput.seq [ProblemTypes.binary])
      ∧ handle_problem_types
          (PTInput.seq [PTElem.str "binary", PTElem.enum ProblemTypes.regression])
        = Except.ok (PTOutput.seq [ProblemTypes.binary, ProblemTypes.regression]) :=
  ⟨handle_problem_types_shapes.1 ProblemTypes.multiclass,
   handle_problem_types_shapes.2.1 "Binary" ProblemTypes.binary (by decide),
   handle_problem_types_shapes.2.2
     [PTElem.str "binary", PTElem.enum ProblemTypes.regression] (by decide)⟩

/-- C6: a string whose uppercasing matches no canonical enum name makes the
resolver raise the `KeyError`-kind error whose message interpolates the
offending string; a string that does match resolves without raising. -/
theorem handle_unknown_string_raises (s : String) :
    (lookupProblemType (pyUpper s) = none →
      handle_problem_types (PTInput.str s)
        = Except.error ("Problem type \x27" ++ s ++ "\x27 does not exist"))
      ∧ (∀ tp, lookupProblemType (pyUpper s) = some tp →
        handle_problem_types (PTInput.str s) = Except.ok (PTOutput.seq [tp])) := by
  constructor
  · intro hnone
    simp [handle_problem_types, resolveLoop, Except.map, hnone]
  · intro tp htp
    simp [handle_problem_types, resolveLoop, Except.map, htp]

/-- C6 witness: `"not_a_type"` raises with the string in the message, while
`"binary"` resolves. -/
theorem handle_unknown_string_raises_witness :
    handle_problem_types (PTInput.str "not_a_type")
        = Except.error "Problem type \x27not_a_type\x27 does not exist"
      ∧ handle_problem_types (PTInput.str "binary")
        = Except.ok (PTOutput.seq [ProblemTypes.binary]) :=
  ⟨(handle_unknown_string_raises "not_a_type").1 (by decide),
   (handle_unknown_string_raises "binary").2 ProblemTypes.binary (by decide)⟩

/-- C7 counterexample: two strings equal after uppercasing need not resolve to
equal results, because the raised error carries the original string: `"nope"`
and `"NOPE"` raise `KeyError`s with different messages. -/
theorem resolver_error_payload_case_dependent :
    pyUpper "nope" = pyUpper "NOPE"
      ∧ handle_problem_types (PTInput.str "nope")
        ≠ handle_problem_types (PTInput.str "NOPE") := by
  decide

/-- C7 (amended): for strings equal after uppercasing, resolution is
case-insensitive up to the error payload - both succeed with equal values or
both fail (the failure messages carrying their respective original strings);
in particular `"BINARY"`, `"binary"` and `"Binary"` all resolve to the same
value. -/
theorem resolver_case_insensitive (s₁ s₂ : String) (h : pyUpper s₁ = pyUpper s₂) :
    (handle_problem_types (PTInput.str s₁)).toOption
        = (handle_problem_types (PTInput.str s₂)).toOption
      ∧ handle_problem_types (PTInput.str "BINARY")
        = handle_problem_types (PTInput.str "binary")
      ∧ handle_problem_types (PTInput.str "binary")
        = handle_problem_types (PTInput.str "Binary")
      ∧ handle_problem_types (PTInput.str "Binary")
        = Except.ok (PTOutput.seq [ProblemTypes.binary]) := by
  refine ⟨?_, by decide, by decide, by decide⟩
  simp only [handle_problem_types, resolveLoop, h]
  cases lookupProblemType (pyUpper s₂) <;> rfl

/-- C7 witness: the amended statement at `"bInArY"` and `"BinarY"`. -/
theorem resolver_case_insensitive_witness :
    (handle_problem_types (PTInput.str "bInArY")).toOption
        = (handle_problem_types (PTInput.str "BinarY")).toOption
      ∧ handle_problem_types (PTInput.str "Binary")
        = Except.ok (PTOutput.seq [ProblemTypes.binary]) :=
  ⟨(resolver_case_insensitive "bInArY" "BinarY" (by decide)).1,
   (resolver_case_insensitive "bInArY" "BinarY" (by decide)).2.2.2⟩

/-- C10: an element of a sequence input that is neither a string nor a
canonical enum value is silently skipped - removing it does not change the
result, so it raises nothing and contributes no entry; a sequence of only
such elements resolves to the empty list (shorter than the input). -/
theorem resolver_skips_unrecognized (pre post : List PTElem) :
    handle_problem_types (PTInput.seq (pre ++ PTElem.other :: post))
        = handle_problem_types (PTInput.seq (pre ++ post))
      ∧ handle_problem_types (PTInput.seq [PTElem.other])
        = Except.ok (PTOutput.seq []) := by
  constructor
  · simp [handle_problem_types, resolveLoop_skip]
  · decide

/-- Distinct-value count of a label series: pandas `y.nunique()`. -/
def nunique {α : Type} [DecidableEq α] (y : List α) : Nat := y.dedup.length

/-- Modelled from the spec: `is_binary` from `evalml.problem_types.utils`
(not part of this fragment) - whether a problem type is the binary one. -/
def is_binary : ProblemTypes → Bool
  | ProblemTypes.binary => true
  | _ => false

/-- Modelled from the spec: `is_multiclass` from `evalml.problem_types.utils`
(not part of this fragment) - whether a problem type is the multiclass one. -/
def is_multiclass : ProblemTypes → Bool
  | ProblemTypes.multiclass => true
  | _ => false

/-- The class-cardinality validation at the top of
`EnsembleClassificationPipeline.fit` (lines 142-147): for a binary pipeline,
`y.nunique() != 2` raises a `ValueError`; for a multiclass pipeline,
`y.nunique() in [1, 2]` raises a `ValueError`; otherwise the validation
passes and `fit` proceeds. -/
def fitCardinalityCheck {α : Type} [DecidableEq α] (pt : ProblemTypes)
    (y : List α) : Except String Unit :=
  if is_binary pt && !(nunique y == 2) then
    Except.error "Binary pipelines require y to have 2 unique classes!"
  else if is_multiclass pt && ((nunique y == 1) || (nunique y == 2)) then
    Except.error "Multiclass pipelines require y to have 3 or more unique classes!"
  else Except.ok ()

/-- C1: with problem type binary, `fit` raises the class-cardinality
`ValueError` exactly when the label series does not have 2 distinct values;
with exactly 2 distinct values the validation passes and `fit` proceeds. -/
theorem binary_cardinality_check {α : Type} [DecidableEq α] (y : List α) :
    (nunique y ≠ 2 → fitCardinalityCheck ProblemTypes.binary y
        = Except.error "Binary pipelines require y to have 2 unique classes!")
      ∧ (nunique y = 2 → fitCardinalityCheck ProblemTypes.binary y
        = Except.ok ()) := by
  by_cases h : nunique y = 2 <;>
    simp [fitCardinalityCheck, is_binary, is_multiclass, h]

/-- C1 witness: one label gives the error, two distinct labels pass. -/
theorem binary_cardinality_check_witness :
    fitCardinalityCheck ProblemTypes.binary [(0 : Nat)]
        = Except.error "Binary pipelines require y to have 2 unique classes!"
      ∧ fitCardinalityCheck ProblemTypes.binary [(0 : Nat), 1]
        = Except.ok () :=
  ⟨(binary_cardinality_check [(0 : Nat)]).1 (by decide),
   (binary_cardinality_check [(0 : Nat), 1]).2 (by decide)⟩

/-- C2 counterexample: with problem type multiclass and an empty label series
(0 distinct values, hence fewer than 3) the cardinality validation passes
instead of raising - the code only rejects `y.nunique() in [1, 2]`. -/
theorem multiclass_zero_classes_passes :
    fitCardinalityCheck ProblemTypes.multiclass ([] : List Nat) = Except.ok ()
      ∧ nunique ([] : List Nat) < 3 := by
  decide

/-- C2 (amended): with problem type multiclass, `fit` raises the
class-cardinality `ValueError` exactly when the label series has 1 or 2
distinct values; with 0 distinct values (empty series) or 3 or more, the
cardinality validation passes. -/
theorem multiclass_cardinality_check {α : Type} [DecidableEq α] (y : List α) :
    ((nunique y = 1 ∨ nunique y = 2) →
      fitCardinalityCheck ProblemTypes.multiclass y
        = Except.error "Multiclass pipelines require y to have 3 or more unique classes!")
      ∧ ((nunique y = 0 ∨ 3 ≤ nunique y) →
        fitCardinalityCheck ProblemTypes.multiclass y = Except.ok ()) := by
  constructor
  · rintro (h | h) <;> simp [fitCardinalityCheck, is_binary, is_multiclass, h]
  · rintro (h | h)
    · simp [fitCardinalityCheck, is_binary, is_multiclass, h]
    · have h1 : nunique y ≠ 1 := by omega
      have h2 : nunique y ≠ 2 := by omega
      simp [fitCardinalityCheck, is_binary, is_multiclass, h1, h2]

/-- C2 witness: two distinct labels raise, three distinct labels pass. -/
theorem multiclass_cardinality_check_witness :
    fitCardinalityCheck ProblemTypes.multiclass [(0 : Nat), 1]
        = Except.error "Multiclass pipelines require y to have 3 or more unique classes!"
      ∧ fitCardinalityCheck ProblemTypes.multiclass [(0 : Nat), 1, 2]
        = Except.ok () :=
  ⟨(multiclass_cardinality_check [(0 : Nat), 1]).1 (by decide),
   (multiclass_cardinality_check [(0 : Nat), 1, 2]).2 (by decide)⟩

/-- A pandas/woodwork column name: an integer (what the positional rename
produces) or a string (original class labels, composite keys). -/
inductive ColName where
  | nat : Nat → ColName
  | str : String → ColName
  deriving DecidableEq, Repr

/-- Python `str(col)` on a column name, as used inside the f-string. -/
def colNameStr : ColName → String
  | ColName.nat n => Nat.repr n
  | ColName.str s => s

/-- A tabular prediction frame, represented by its column names (the only
axis the verified code manipulates; woodwork keeps column names unique). -/
structure WWFrame where
  cols : List ColName
  deriving DecidableEq, Repr

/-- The loop building `new_columns` in `_preds_processor` (lines 113-115):
`for i, column in enumerate(preds.columns): new_columns[column] = i`, a later
assignment to the same key overriding an earlier one. -/
def buildRenameDict : List ColName → Nat → (ColName → Option Nat) → ColName → Option Nat
  | [], _, d => d
  | c :: rest, i, d =>
      buildRenameDict rest (i + 1) (fun x => if x = c then some i else d x)

/-- The finished `new_columns` dict, keyed by original column name. -/
def renameDict (cols : List ColName) : ColName → Option Nat :=
  buildRenameDict cols 0 (fun _ => none)

/-- `preds.ww.rename(new_columns)` on one column: a column that is a key of
the dict gets its new (integer) name, any other column keeps its name. -/
def applyRenameDict (d : ColName → Option Nat) (c : ColName) : ColName :=
  match d c with
  | some i => ColName.nat i
  | none => c

/-- `preds.ww.drop(preds.columns[0])`: drop the column(s) named like the
first one. -/
def dropFirstColumn : List ColName → List ColName
  | [] => []
  | c₀ :: rest => (c₀ :: rest).filter (fun c => c != c₀)

/-- The composite key `f"Col \x7bstr(col)\x7d \x7bpipeline_name\x7d.x"` of line 121. -/
def compositeKey (c : ColName) (pipelineName : String) : ColName :=
  ColName.str ("Col " ++ colNameStr c ++ " " ++ pipelineName ++ ".x")

/-- Embedding of `EnsembleClassificationPipeline._preds_processor`
(lines 110-123). The input is typed as a frame, so the non-DataFrame
`ValueError` branch of line 112 cannot fire. The first rename is in-place
(`inplace=True`) and therefore mutates the caller's frame; the binary-case
drop and the second rename rebind the local variable only. The value is the
pair (frame returned, caller's frame after the call). -/
def preds_processor (preds : WWFrame) (pipelineName : String) : WWFrame × WWFrame :=
  let renamed : WWFrame := ⟨preds.cols.map (applyRenameDict (renameDict preds.cols))⟩
  let preds₁ : WWFrame :=
    if renamed.cols.length = 2 then ⟨dropFirstColumn renamed.cols⟩ else renamed
  let result : WWFrame := ⟨preds₁.cols.map (fun c => compositeKey c pipelineName)⟩
  (result, renamed)

theorem buildRenameDict_not_mem (cols : List ColName) (i : Nat)
    (d : ColName → Option Nat) (c : ColName) (h : c ∉ cols) :
    buildRenameDict cols i d c = d c := by
  induction cols generalizing i d with
  | nil => rfl
  | cons c₀ rest ih =>
    have hne : c ≠ c₀ := fun he => h (he ▸ List.mem_cons_self c₀ rest)
    have hrest : c ∉ rest := fun hm => h (List.mem_cons_of_mem _ hm)
    simp only [buildRenameDict]
    rw [ih _ _ hrest]
    simp [hne]

theorem buildRenameDict_getElem (cols : List ColName) (h : cols.Nodup) :
    ∀ (j : Nat) (hj : j < cols.length) (i : Nat) (d : ColName → Option Nat),
      buildRenameDict cols i d cols[j] = some (i + j) := by
  induction cols with
  | nil => intro j hj; exact absurd hj (by simp)
  | cons c₀ rest ih =>
    intro j hj i d
    cases j with
    | zero =>
      have hc : c₀ ∉ rest := (List.nodup_cons.mp h).1
      simp only [buildRenameDict, List.getElem_cons_zero]
      rw [buildRenameDict_not_mem _ _ _ _ hc]
      simp
    | succ j =>
      have hr : rest.Nodup := (List.nodup_cons.mp h).2
      have hj' : j < rest.length := by simpa using Nat.lt_of_succ_lt_succ hj
      simp only [buildRenameDict, List.getElem_cons_succ]
      rw [ih hr j hj' (i + 1) _]
      congr 1
      omega

theorem renameDict_mem (cols : List ColName) (x : ColName) (hx : x ∈ cols) :
    ∃ i, renameDict cols x = some i := by
  suffices hgen : ∀ (i : Nat) (d : ColName → Option Nat),
      ∃ j, buildRenameDict cols i d x = some j by exact hgen 0 _
  induction cols with
  | nil => cases hx
  | cons c₀ rest ih =>
    intro i d
    by_cases hr : x ∈ rest
    · exact ih hr (i + 1) _
    · have hx0 : x = c₀ := by
        rcases List.mem_cons.mp hx with h0 | h0
        · exact h0
        · exact absurd h0 hr
      refine ⟨i, ?_⟩
      simp only [buildRenameDict]
      rw [buildRenameDict_not_mem _ _ _ _ hr]
      simp [hx0]

theorem renameDict_map (cols : List ColName) (h : cols.Nodup) :
    cols.map (applyRenameDict (renameDict cols))
      = (List.range cols.length).map ColName.nat := by
  apply List.ext_get
  · simp
  · intro n h₁ h₂
    simp only [List.get_eq_getElem, List.getElem_map, List.getElem_range]
    have hn : n < cols.length := by simpa using h₁
    have := buildRenameDict_getElem cols h n hn 0 (fun _ => none)
    simp only [renameDict, applyRenameDict, this, Nat.zero_add]

theorem digitChar_ne_space (n : Nat) : Nat.digitChar n ≠ ' ' := by
  rcases n with _|_|_|_|_|_|_|_|_|_|_|_|_|_|_|_|m
  all_goals try decide
  unfold Nat.digitChar
  repeat rw [if_neg (by omega)]
  decide

theorem toDigitsCore_ne_space :
    ∀ (f n : Nat) (ds : List Char), (∀ c ∈ ds, c ≠ ' ') →
      ∀ c ∈ Nat.toDigitsCore 10 f n ds, c ≠ ' ' := by
  intro f
  induction f with
  | zero => intro n ds hds c hc; exact hds c hc
  | succ f ih =>
    intro n ds hds c hc
    unfold Nat.toDigitsCore at hc
    dsimp only at hc
    split at hc
    · rcases List.mem_cons.mp hc with h | h
      · subst h; exact digitChar_ne_space _
      · exact hds c h
    · refine ih _ _ ?_ c hc
      intro d hd
      rcases List.mem_cons.mp hd with h | h
      · subst h; exact digitChar_ne_space _
      · exact hds d h

theorem repr_ne_space (n : Nat) : ∀ c ∈ (Nat.repr n).data, c ≠ ' ' := by
  intro c hc
  have hh : (Nat.repr n).data = Nat.toDigitsCore 10 (n + 1) n [] := rfl
  rw [hh] at hc
  exact toDigitsCore_ne_space (n + 1) n [] (by intro d hd; cases hd) c hc

theorem append_space_split :
    ∀ (a b x y : List Char), (∀ c ∈ a, c ≠ ' ') → (∀ c ∈ b, c ≠ ' ') →
      a ++ ' ' :: x = b ++ ' ' :: y → a = b ∧ x = y := by
  intro a
  induction a with
  | nil =>
    intro b x y _ hb h
    cases b with
    | nil => simpa using h
    | cons b₀ bs =>
      rw [List.nil_append, List.cons_append] at h
      injection h with h₁ _
      exact absurd h₁.symm (hb b₀ (List.mem_cons_self b₀ bs))
  | cons a₀ as ih =>
    intro b x y ha hb h
    cases b with
    | nil =>
      rw [List.cons_append, List.nil_append] at h
      injection h with h₁ _
      exact absurd h₁ (ha a₀ (List.mem_cons_self a₀ as))
    | cons b₀ bs =>
      rw [List.cons_append, List.cons_append] at h
      injection h with h₁ h₂
      subst h₁
      obtain ⟨h₃, h₄⟩ :=
        ih bs x y (fun c hc => ha c (List.mem_cons_of_mem _ hc))
          (fun c hc => hb c (List.mem_cons_of_mem _ hc)) h₂
      exact ⟨by rw [h₃], h₄⟩

theorem compositeKey_name_inj (i j : Nat) (n₁ n₂ : String)
    (h : compositeKey (ColName.nat i) n₁ = compositeKey (ColName.nat j) n₂) :
    n₁ = n₂ := by
  have hs : ("Col " ++ Nat.repr i ++ " " ++ n₁ ++ ".x")
      = ("Col " ++ Nat.repr j ++ " " ++ n₂ ++ ".x") := by
    simpa [compositeKey, colNameStr] using h
  have hd := congrArg String.data hs
  have hcol : ("Col " : String).data = ['C', 'o', 'l', ' '] := rfl
  have hsp : (" " : String).data = [' '] := rfl
  have hx : (".x" : String).data = ['.', 'x'] := rfl
  simp only [String.data_append, hcol, hsp, hx, List.append_assoc,
    List.cons_append, List.nil_append] at hd
  injection hd with _ hd
  injection hd with _ hd
  injection hd with _ hd
  injection hd with _ hd
  obtain ⟨_, htail⟩ :=
    append_space_split _ _ _ _ (repr_ne_space i) (repr_ne_space j) hd
  have hdata : n₁.data = n₂.data := List.append_cancel_right htail
  cases n₁
  cases n₂
  exact congrArg String.mk hdata

theorem preds_processor_eq (cols : List ColName) (nm : String) (h : cols.Nodup) :
    preds_processor ⟨cols⟩ nm
      = (⟨((if cols.length = 2 then
              dropFirstColumn ((List.range cols.length).map ColName.nat)
            else (List.range cols.length).map ColName.nat).map
            (fun c => compositeKey c nm))⟩,
         ⟨(List.range cols.length).map ColName.nat⟩) := by
  have hm := renameDict_map cols h
  simp only [preds_processor, hm, List.length_map, List.length_range]
  by_cases h2 : cols.length = 2 <;> simp [h2]

theorem preds_processor_result_mem (cols : List ColName) (nm : String) :
    ∀ c ∈ (preds_processor ⟨cols⟩ nm).1.cols,
      ∃ i, c = compositeKey (ColName.nat i) nm := by
  intro c hc
  simp only [preds_processor] at hc
  rcases List.mem_map.mp hc with ⟨a, ha, rfl⟩
  have hmem : a ∈ cols.map (applyRenameDict (renameDict cols)) := by
    by_cases h2 : (cols.map (applyRenameDict (renameDict cols))).length = 2
    · rw [if_pos h2] at ha
      cases hl : cols.map (applyRenameDict (renameDict cols)) with
      | nil =>
        rw [hl] at ha
        have ha' : a ∈ ([] : List ColName) := ha
        cases ha'
      | cons c₀ rest =>
        rw [hl] at ha
        have ha' : a ∈ (c₀ :: rest).filter (fun c => c != c₀) := ha
        exact (List.mem_filter.mp ha').1
    · rw [if_neg h2] at ha; exact ha
  rcases List.mem_map.mp hmem with ⟨x, hx, rfl⟩
  rcases renameDict_mem cols x hx with ⟨i, hi⟩
  exact ⟨i, by simp [applyRenameDict, hi]⟩

/-- C3: under the woodwork invariant that the input column names are unique,
the reshaping step first renames the columns (in place) to their positional
indices `0..K-1`; a 2-column table yields exactly the one column for index 1,
a `K > 2`-column table yields exactly `K` columns, one per index, each
renamed to the composite key built from its positional index and the pipeline
name; and outputs for pipelines with distinct names share no column name. -/
theorem preds_processor_columns (cols cols₂ : List ColName) (n₁ n₂ : String)
    (h : cols.Nodup) :
    ((preds_processor ⟨cols⟩ n₁).2.cols = (List.range cols.length).map ColName.nat)
      ∧ (cols.length = 2 →
        (preds_processor ⟨cols⟩ n₁).1.cols = [compositeKey (ColName.nat 1) n₁])
      ∧ (2 < cols.length →
        (preds_processor ⟨cols⟩ n₁).1.cols
          = (List.range cols.length).map (fun i => compositeKey (ColName.nat i) n₁))
      ∧ (n₁ ≠ n₂ → ∀ c ∈ (preds_processor ⟨cols⟩ n₁).1.cols,
        c ∉ (preds_processor ⟨cols₂⟩ n₂).1.cols) := by
  refine ⟨?_, ?_, ?_, ?_⟩
  · rw [preds_processor_eq cols n₁ h]
  · intro h2
    rw [preds_processor_eq cols n₁ h, if_pos h2, h2]
    rfl
  · intro h3
    rw [preds_processor_eq cols n₁ h, if_neg (by omega), List.map_map]
    rfl
  · intro hne c hc₁ hc₂
    rcases preds_processor_result_mem cols n₁ c hc₁ with ⟨i, rfl⟩
    rcases preds_processor_result_mem cols₂ n₂ _ hc₂ with ⟨j, hj⟩
    exact hne (compositeKey_name_inj i j n₁ n₂ hj)

/-- C3 witness: the four parts at concrete 3-column and 2-column tables. -/
theorem preds_processor_columns_witness :
    (preds_processor ⟨[ColName.str "a", ColName.str "b", ColName.str "c"]⟩ "A").2.cols
        = [ColName.nat 0, ColName.nat 1, ColName.nat 2]
      ∧ (preds_processor ⟨[ColName.str "p", ColName.str "q"]⟩ "B").1.cols
        = [compositeKey (ColName.nat 1) "B"]
      ∧ (preds_processor ⟨[ColName.str "a", ColName.str "b", ColName.str "c"]⟩ "A").1.cols
        = [compositeKey (ColName.nat 0) "A", compositeKey (ColName.nat 1) "A",
            compositeKey (ColName.nat 2) "A"]
      ∧ compositeKey (ColName.nat 0) "A"
        ∉ (preds_processor ⟨[ColName.str "p", ColName.str "q"]⟩ "B").1.cols :=
  ⟨(preds_processor_columns [ColName.str "a", ColName.str "b", ColName.str "c"]
      [ColName.str "p", ColName.str "q"] "A" "B" (by decide)).1,
   (preds_processor_columns [ColName.str "p", ColName.str "q"]
      [ColName.str "a", ColName.str "b", ColName.str "c"] "B" "A" (by decide)).2.1 rfl,
   (preds_processor_columns [ColName.str "a", ColName.str "b", ColName.str "c"]
      [ColName.str "p", ColName.str "q"] "A" "B" (by decide)).2.2.1 (by decide),
   (preds_processor_columns [ColName.str "a", ColName.str "b", ColName.str "c"]
      [ColName.str "p", ColName.str "q"] "A" "B" (by decide)).2.2.2 (by decide)
      (compositeKey (ColName.nat 0) "A") (by decide)⟩

/-- C9: the reshaping step mutates its input frame in place - after the call
the caller's frame has its columns renamed to the positional indices, so the
input is not left unchanged whenever its columns were not already exactly
those indices (the drop and the second rename affect only the returned
frame). -/
theorem preds_processor_mutates_input (cols : List ColName) (nm : String)
    (h : cols.Nodup) :
    ((preds_processor ⟨cols⟩ nm).2.cols = (List.range cols.length).map ColName.nat)
      ∧ (cols ≠ (List.range cols.length).map ColName.nat →
        (preds_processor ⟨cols⟩ nm).2.cols ≠ cols) := by
  have he := preds_processor_eq cols nm h
  constructor
  · rw [he]
  · intro hne
    rw [he]
    exact fun hcontra => hne hcontra.symm

/-- C9 witness: a 2-column frame with string labels is left with columns
`[0, 1]`, different from its original columns. -/
theorem preds_processor_mutates_input_witness :
    (preds_processor ⟨[ColName.str "a", ColName.str "b"]⟩ "P").2.cols
        = [ColName.nat 0, ColName.nat 1]
      ∧ (preds_processor ⟨[ColName.str "a", ColName.str "b"]⟩ "P").2.cols
        ≠ [ColName.str "a", ColName.str "b"] :=
  ⟨(preds_processor_mutates_input [ColName.str "a", ColName.str "b"] "P" (by decide)).1,
   (preds_processor_mutates_input [ColName.str "a", ColName.str "b"] "P" (by decide)).2
     (by decide)⟩

/-- An observable event of the internal cross-validation branch of `fit`
(lines 184-200): cloning an input pipeline (identified by its index in
`self.input_pipelines`), fitting a clone on a fold\x27s training rows, and
predicting probabilities on a fold\x27s validation rows (folds identified by
their index in split order). -/
inductive FitEvent where
  | cloned : Nat → FitEvent
  | fitted : Nat → Nat → FitEvent
  | predicted : Nat → Nat → FitEvent
  deriving DecidableEq, Repr

/-- The event trace of the internal cross-validation branch of `fit` for
`numPipelines` input pipelines and `numFolds` splitter folds: the loop of
lines 184-186 clones every input pipeline once into `pred_pls`, before the
fold loop; then for each fold in order the loop of lines 189-200 fits each
clone on the fold\x27s training rows and has it predict on the fold\x27s
validation rows. -/
def cvFitTrace (numPipelines numFolds : Nat) : List FitEvent :=
  ((List.range numPipelines).map FitEvent.cloned)
    ++ (List.range numFolds).flatMap (fun f =>
      (List.range numPipelines).flatMap (fun p =>
        [FitEvent.fitted p f, FitEvent.predicted p f]))

theorem flatMap_block_infix {α β : Type} (g : α → List β) (l : List α) (x : α)
    (hx : x ∈ l) : List.IsInfix (g x) (l.flatMap g) := by
  obtain ⟨s, t, rfl⟩ := List.append_of_mem hx
  refine ⟨s.flatMap g, t.flatMap g, ?_⟩
  simp [List.flatMap_append, List.flatMap_cons, List.append_assoc]

/-- C4 counterexample: with 1 input pipeline and 2 folds, the pipeline is
cloned exactly once in the whole branch, not once per fold - the clones are
created before the fold loop and refitted in every fold. -/
theorem cv_fit_clone_once_not_per_fold :
    (cvFitTrace 1 2).count (FitEvent.cloned 0) = 1
      ∧ (cvFitTrace 1 2).count (FitEvent.cloned 0) ≠ 2 := by
  decide

/-- C4 (amended): in the internal cross-validation branch each input pipeline
is cloned exactly once, all cloning happens before the fold loop (the first
`P` events, and no clone event afterwards), and in each fold each clone is
fitted on that fold\x27s training rows immediately before predicting on that
fold\x27s validation rows. -/
theorem cv_fit_trace_amended (P F p f : Nat) (hp : p < P) (hf : f < F) :
    ((cvFitTrace P F).count (FitEvent.cloned p) = 1)
      ∧ ((cvFitTrace P F).take P = (List.range P).map FitEvent.cloned)
      ∧ (∀ e ∈ (cvFitTrace P F).drop P, ∀ q, e ≠ FitEvent.cloned q)
      ∧ List.IsInfix [FitEvent.fitted p f, FitEvent.predicted p f]
          (cvFitTrace P F) := by
  have hlen : ((List.range P).map FitEvent.cloned).length = P := by simp
  refine ⟨?_, ?_, ?_, ?_⟩
  · rw [cvFitTrace, List.count_append]
    have hinj : Function.Injective FitEvent.cloned := by
      intro a b hab
      cases hab
      rfl
    have h1 : ((List.range P).map FitEvent.cloned).count (FitEvent.cloned p) = 1 := by
      rw [List.count_map_of_injective _ _ hinj]
      exact List.count_eq_one_of_mem (List.nodup_range P) (List.mem_range.mpr hp)
    have h2 : ((List.range F).flatMap (fun f =>
        (List.range P).flatMap (fun q =>
          [FitEvent.fitted q f, FitEvent.predicted q f]))).count
            (FitEvent.cloned p) = 0 := by
      rw [List.count_eq_zero]
      intro hmem
      rcases List.mem_flatMap.mp hmem with ⟨a, _, hmem2⟩
      rcases List.mem_flatMap.mp hmem2 with ⟨b, _, hmem3⟩
      simp at hmem3
    rw [h1, h2]
  · rw [cvFitTrace, List.take_left' hlen]
  · intro e he q
    rw [cvFitTrace, List.drop_left' hlen] at he
    rcases List.mem_flatMap.mp he with ⟨a, _, hmem2⟩
    rcases List.mem_flatMap.mp hmem2 with ⟨b, _, hmem3⟩
    rcases List.mem_cons.mp hmem3 with h3 | h3
    · rw [h3]; intro hcontra; cases hcontra
    · rcases List.mem_cons.mp h3 with h4 | h4
      · rw [h4]; intro hcontra; cases hcontra
      · cases h4
  · have hinner := flatMap_block_infix
      (fun q => [FitEvent.fitted q f, FitEvent.predicted q f]) (List.range P) p
      (List.mem_range.mpr hp)
    have houter := flatMap_block_infix
      (fun g => (List.range P).flatMap
        (fun q => [FitEvent.fitted q g, FitEvent.predicted q g]))
      (List.range F) f (List.mem_range.mpr hf)
    have hsfx : List.IsInfix ((List.range F).flatMap (fun g =>
        (List.range P).flatMap (fun q =>
          [FitEvent.fitted q g, FitEvent.predicted q g]))) (cvFitTrace P F) :=
      (List.suffix_append _ _).isInfix
    exact hinner.trans (houter.trans hsfx)

/-- C4 witness: the amended statement with 2 pipelines and 2 folds, at
pipeline 1 and fold 0. -/
theorem cv_fit_trace_amended_witness :
    (cvFitTrace 2 2).count (FitEvent.cloned 1) = 1
      ∧ (cvFitTrace 2 2).take 2 = [FitEvent.cloned 0, FitEvent.cloned 1]
      ∧ List.IsInfix [FitEvent.fitted 1 0, FitEvent.predicted 1 0]
          (cvFitTrace 2 2) :=
  ⟨(cv_fit_trace_amended 2 2 1 0 (by decide) (by decide)).1,
   (cv_fit_trace_amended 2 2 1 0 (by decide) (by decide)).2.1,
   (cv_fit_trace_amended 2 2 1 0 (by decide) (by decide)).2.2.2⟩

/-- An input pipeline as `transform` observes it: its `.name`, whether it has
been fitted, and its `predict_proba` output frame per input table (input
tables abstracted by an index). -/
structure InputPipeline where
  name : String
  fitted : Bool
  predictProba : Nat → WWFrame

/-- The ensemble state `transform` reads: the list of input pipelines. -/
structure EnsembleState where
  inputPipelines : List InputPipeline

/-- Modelled from the spec: the `_all_input_pipelines_fitted` property of the
base class `EnsemblePipelineBase` (not part of this fragment) - whether every
input pipeline is already fitted. -/
def allInputPipelinesFitted (st : EnsembleState) : Bool :=
  st.inputPipelines.all (fun pl => pl.fitted)

/-- `ww.concat_columns`: column-wise concatenation of frames, in order. -/
def concatColumns (frames : List WWFrame) : WWFrame :=
  ⟨(frames.map (fun fr => fr.cols)).flatten⟩

/-- Embedding of `EnsembleClassificationPipeline.transform` (lines 210-218):
when not all input pipelines are fitted it raises the unfitted-state
`ValueError`; otherwise each input pipeline predicts probabilities on `X`,
each prediction frame is reshaped by `_preds_processor` with that
pipeline\x27s name, and the blocks are concatenated column-wise in
input-pipeline order. The method assigns no attribute of `self`, so the
ensemble state is returned unchanged alongside the outcome. -/
def transform (st : EnsembleState) (X : Nat) :
    Except String WWFrame × EnsembleState :=
  if !(allInputPipelinesFitted st) then
    (Except.error "Input pipelines needs to be fitted before transform", st)
  else
    (Except.ok (concatColumns (st.inputPipelines.map
      (fun pl => (preds_processor (pl.predictProba X) pl.name).1))), st)

/-- C8 counterexample: the message of the unfitted-state error is
`"Input pipelines needs to be fitted before transform"`, which is not the
string the claim quotes. -/
theorem transform_unfitted_message :
    (transform ⟨[⟨"pl", false, fun _ => ⟨[]⟩⟩]⟩ 0).1
        = Except.error "Input pipelines needs to be fitted before transform"
      ∧ ("Input pipelines needs to be fitted before transform" : String)
        ≠ "input pipelines must be fitted before transform" := by
  constructor
  · rfl
  · decide

/-- C8 (amended): for every input, `transform` raises the unfitted-state
`ValueError` with message `"Input pipelines needs to be fitted before
transform"` exactly when not all input pipelines are fitted, regardless of
`X`; when all are fitted it does not raise that error; and in either case the
ensemble state is not mutated. -/
theorem transform_fitted_guard (st : EnsembleState) (X : Nat) :
    (allInputPipelinesFitted st = false →
      (transform st X).1
        = Except.error "Input pipelines needs to be fitted before transform")
      ∧ (allInputPipelinesFitted st = true →
        (transform st X).1
          ≠ Except.error "Input pipelines needs to be fitted before transform")
      ∧ (transform st X).2 = st := by
  refine ⟨fun hf => by simp [transform, hf], fun ht => by simp [transform, ht], ?_⟩
  by_cases hb : allInputPipelinesFitted st <;> simp [transform, hb]

/-- C8 witness: the guard at a one-pipeline unfitted state and a
one-pipeline fitted state. -/
theorem transform_fitted_guard_witness :
    (transform ⟨[⟨"pl", false, fun _ => ⟨[]⟩⟩]⟩ 5).1
        = Except.error "Input pipelines needs to be fitted before transform"
      ∧ (transform ⟨[⟨"pl", true, fun _ => ⟨[ColName.str "a"]⟩⟩]⟩ 5).1
        ≠ Except.error "Input pipelines needs to be fitted before transform"
      ∧ (transform ⟨[⟨"pl", true, fun _ => ⟨[ColName.str "a"]⟩⟩]⟩ 5).2
        = ⟨[⟨"pl", true, fun _ => ⟨[ColName.str "a"]⟩⟩]⟩ :=
  ⟨(transform_fitted_guard ⟨[⟨"pl", false, fun _ => ⟨[]⟩⟩]⟩ 5).1 rfl,
   (transform_fitted_guard ⟨[⟨"pl", true, fun _ => ⟨[ColName.str "a"]⟩⟩]⟩ 5).2.1 rfl,
   (transform_fitted_guard ⟨[⟨"pl", true, fun _ => ⟨[ColName.str "a"]⟩⟩]⟩ 5).2.2⟩

end EvalML
